import Mathlib

/-!
Verification of the streaming speech-transcription session controller
(`stt_deepgram.py`, `dg_flux_ptt_qwen_chat.py`, `dg_vi_hotmic_qwen_toggle.py`).

Python strings are modelled as `List Char` (`Str`), Python `str.strip`
as `pyStrip`, `" ".join` as `pyJoin`, truthiness-based `x or y` on an
optional string as `pyOr`, and the negative slice `l[-k:]` as
`pyTakeLast`.  Dictionaries keyed by turn index are modelled as
functions `Nat → Option Str`.  Each receiver / sender loop is modelled
as a step function on an explicit state, folded over a finite script of
inbound events (message, timeout, channel-closed, exception), each
script entry carrying the monotonic-clock reading (in milliseconds) at
which the loop iteration runs.
-/

/-- Python strings, modelled as lists of characters. -/
abbrev Str := List Char

/-- Coerce a Lean string literal to the `Str` model. -/
def str (s : String) : Str := s.toList

/-- Whitespace test used by Python's `str.strip()`. -/
def isWS (c : Char) : Bool := c.isWhitespace

/-- Python `s.lstrip()`: drop leading whitespace. -/
def pyLStrip (s : Str) : Str := s.dropWhile isWS

/-- Python `s.strip()`: drop leading and trailing whitespace. -/
def pyStrip (s : Str) : Str := ((s.dropWhile isWS).reverse.dropWhile isWS).reverse

/-- Python `sep.join(xs)`. -/
def pyJoin (sep : Str) : List Str → Str
  | [] => []
  | [s] => s
  | s :: s' :: rest => s ++ sep ++ pyJoin sep (s' :: rest)

/-- Python `x or y` where `x` is an optional string: falls through to `y`
when `x` is `None` or the empty (falsy) string. -/
def pyOr (x : Option Str) (y : Str) : Str :=
  match x with
  | none => y
  | some s => if s = [] then y else s

/-- Python `l[-k:]` for `k ≥ 0`: the last `k` entries (the whole list when
`k = 0`, mirroring Python's `l[-0:] = l`). -/
def pyTakeLast (k : Nat) (l : List α) : List α :=
  if k = 0 then l else l.drop (l.length - k)

/-! ## Flux receiver: per-turn reconciliation
(`receiver` in `dg_flux_ptt_qwen_chat.py`, lines 114–171). -/

/-- The `event` field of a Flux `TurnInfo` message. -/
inductive FluxEv where
  | update
  | endOfTurn
  | otherEv
deriving DecidableEq, Repr

/-- A parsed `TurnInfo` message: event tag, optional `turn_index`, raw
`transcript` text (before stripping). -/
structure FluxEvent where
  ev : FluxEv
  turn_index : Option Nat
  transcript : Str
deriving DecidableEq, Repr

/-- Receiver state of `flux_record_once`: the `latest_by_turn` dict and the
ordered `finals` list. -/
structure FluxState where
  latest_by_turn : Nat → Option Str
  finals : List Str

/-- `if transcript and turn_index is not None: latest_by_turn[turn_index] = transcript`. -/
def fluxUpdateLatest (latest : Nat → Option Str) (ti : Option Nat) (t : Str) :
    Nat → Option Str :=
  match ti with
  | none => latest
  | some i => if t = [] then latest else fun j => if j = i then some t else latest j

/-- `final_text = (latest_by_turn.get(turn_index) or transcript).strip()` on
`EndOfTurn` (with the `turn_index is None` fallback `transcript.strip()`). -/
def fluxFinalText (latest : Nat → Option Str) (ti : Option Nat) (t : Str) : Str :=
  match ti with
  | none => pyStrip t
  | some i => pyStrip (pyOr (latest i) t)

/-- One `TurnInfo` message through the Flux receiver body
(`dg_flux_ptt_qwen_chat.py` lines 148–171): strip the transcript, update
`latest_by_turn` when the stripped text is non-empty and a turn index is
present, and on `EndOfTurn` append the reconciled text to `finals` when it
is non-empty. -/
def fluxStep (st : FluxState) (e : FluxEvent) : FluxState :=
  let t := pyStrip e.transcript
  let latest := fluxUpdateLatest st.latest_by_turn e.turn_index t
  match e.ev with
  | .update => { st with latest_by_turn := latest }
  | .otherEv => { st with latest_by_turn := latest }
  | .endOfTurn =>
      let ft := fluxFinalText latest e.turn_index t
      if ft = [] then { st with latest_by_turn := latest }
      else { latest_by_turn := latest, finals := st.finals ++ [ft] }

/-- Initial receiver state: empty dict, empty finals. -/
def fluxInit : FluxState := ⟨fun _ => none, []⟩

/-- Fold a script of `TurnInfo` messages through the receiver. -/
def fluxRun (es : List FluxEvent) : FluxState := es.foldl fluxStep fluxInit

/-- `" ".join([s.strip() for s in finals if s.strip()]).strip()`
(`dg_flux_ptt_qwen_chat.py` lines 189–190). -/
def fluxCombined (finals : List Str) : Str :=
  pyStrip (pyJoin (str " ")
    (finals.filterMap fun s => if pyStrip s = [] then none else some (pyStrip s)))


/-! ## stt_deepgram.py: receiver message processing
(`DeepgramSTTController._receiver_loop`, lines 253–318). -/

/-- One entry of `stream_log`: timestamp, `is_final` flag, stripped text. -/
structure LogEntry where
  ts : Nat
  is_final : Bool
  text : Str
deriving DecidableEq, Repr

/-- A parsed inbound Deepgram message: a `Results` message carrying the
first alternative's transcript and the `is_final` flag, or any other
message type (skipped by the loop). -/
inductive DgMsg where
  | results (transcript : Str) (is_final : Bool)
  | otherMsg
deriving DecidableEq, Repr

/-- Transcript state of `DeepgramSTTController`. -/
structure SttState where
  final_segments : List Str
  last_interim : Str
  stream_log : List LogEntry
deriving DecidableEq, Repr

/-- Append-then-trim of `stream_log`: after appending, if the length
exceeds `STREAM_LOG_MAX * 4` keep only the last `STREAM_LOG_MAX * 2`
entries (`stt_deepgram.py` lines 282–290). -/
def trimLog (logMax : Nat) (log : List LogEntry) : List LogEntry :=
  if logMax * 4 < log.length then pyTakeLast (logMax * 2) log else log

/-- Processing of one received message inside `_receiver_loop`
(lines 264–299): skip non-`Results` messages, strip the transcript, skip
when empty, append to `stream_log` (with trimming), then either append a
final segment and clear `last_interim`, or record the interim text. -/
def sttProcess (logMax : Nat) (st : SttState) (now : Nat) (m : DgMsg) : SttState :=
  match m with
  | .otherMsg => st
  | .results tr fin =>
      let t := pyStrip tr
      if t = [] then st
      else
        let log := trimLog logMax (st.stream_log ++ [⟨now, fin, t⟩])
        if fin then
          { final_segments := st.final_segments ++ [t], last_interim := [],
            stream_log := log }
        else
          { st with last_interim := t, stream_log := log }

/-- Default `STREAM_LOG_MAX`. -/
def STREAM_LOG_MAX : Nat := 600

/-- Fold a timed script of inbound messages through `sttProcess`. -/
def sttRunMsgs (logMax : Nat) (ms : List (Nat × DgMsg)) : SttState :=
  ms.foldl (fun st p => sttProcess logMax st p.1 p.2) ⟨[], [], []⟩

/-! ## stt_deepgram.py: receiver loop control
(timeout / closed / exception handling, lines 260–318). -/

/-- What `ws.recv()` (under `wait_for`) produced at one loop iteration. -/
inductive RecvEvt where
  | msg (m : DgMsg)
  | timeout
  | closed
  | exc
deriving DecidableEq, Repr

/-- One scripted receiver iteration: the monotonic clock reading `now`
(ms), whether `stop_event` is set, and what the channel produced. -/
structure RecvStep where
  now : Nat
  stop : Bool
  e : RecvEvt
deriving DecidableEq, Repr

/-- Receiver loop state: transcript state plus the `grace_deadline`
local (`None` until the first post-stop timeout). -/
structure SttRecvState where
  st : SttState
  gd : Option Nat
deriving DecidableEq, Repr

/-- Result of one loop iteration: continue with a new state, or break. -/
inductive StepRes (σ : Type) where
  | cont (s : σ)
  | brk (s : σ)
deriving DecidableEq, Repr

/-- One iteration of `_receiver_loop` (lines 260–316): a received message
is processed (the grace deadline is left untouched); a timeout while the
stop flag is set arms the grace deadline at `now + graceMs` the first
time and breaks once `now` passes it; `ConnectionClosed` always breaks;
any other exception breaks only when the stop flag is set. -/
def sttRecvStep (graceMs logMax : Nat) (rs : SttRecvState) (i : RecvStep) :
    StepRes SttRecvState :=
  match i.e with
  | .msg m => .cont ⟨sttProcess logMax rs.st i.now m, rs.gd⟩
  | .timeout =>
      if i.stop then
        match rs.gd with
        | none => .cont ⟨rs.st, some (i.now + graceMs)⟩
        | some d => if d < i.now then .brk rs else .cont rs
      else .cont rs
  | .closed => .brk rs
  | .exc => if i.stop then .brk rs else .cont rs

/-- Run the receiver loop over a finite script; returns the final state
and whether the loop broke before the script ran out. -/
def sttRecvRun (graceMs logMax : Nat) (rs : SttRecvState) :
    List RecvStep → SttRecvState × Bool
  | [] => (rs, false)
  | i :: rest =>
      match sttRecvStep graceMs logMax rs i with
      | .cont s => sttRecvRun graceMs logMax s rest
      | .brk s => (s, true)

/-! ## Flux receiver loop control
(`receiver` in `dg_flux_ptt_qwen_chat.py`, lines 114–127). -/

/-- What one Flux receiver iteration observed on the channel. -/
inductive FluxIn where
  | recvMsg (isError : Bool)
  | timeout
  | closed
deriving DecidableEq, Repr

/-- One scripted Flux receiver iteration: clock reading, whether the
sender has already sent `CloseStream` (`sent_close`), and the channel
observation. -/
structure FluxRecvStep where
  now : Nat
  sentClose : Bool
  e : FluxIn
deriving DecidableEq, Repr

/-- Loop control of the Flux `receiver`: the state is `last_msg_time`.
A received message refreshes `last_msg_time` (and a Deepgram `Error`
message breaks); a timeout breaks only when `sent_close` is set and more
than the grace window has elapsed since the last message;
`ConnectionClosed` breaks. -/
def fluxRecvCtl (graceMs lastMsg : Nat) (i : FluxRecvStep) : StepRes Nat :=
  match i.e with
  | .recvMsg isErr => if isErr then .brk i.now else .cont i.now
  | .timeout =>
      if i.sentClose ∧ graceMs < i.now - lastMsg then .brk lastMsg else .cont lastMsg
  | .closed => .brk lastMsg

/-! ## Transmit pump
(`DeepgramSTTController._sender_loop`, lines 217–251; the hot-mic
variant at `dg_vi_hotmic_qwen_toggle.py` lines 281–304 is identical in
structure). -/

/-- What `audio_q.get()` (under `wait_for`) and `ws.send` produced at one
sender iteration: a queue timeout, or a dequeued chunk whose send either
succeeded or raised `ConnectionClosed`. -/
inductive SendEvt where
  | timeout
  | chunk (ok : Bool)
deriving DecidableEq, Repr

/-- One scripted sender iteration: clock reading `t` (ms) and whether
`stop_event` is set at that iteration. -/
structure SendStep where
  t : Nat
  stop : Bool
  e : SendEvt
deriving DecidableEq, Repr

/-- How a sender run ended. -/
inductive SendTerm where
  | closedNormally
  | sendFail
  | ranOut
deriving DecidableEq, Repr

/-- Observable outcome of a sender run: the clock times at which audio
frames were sent, how many `CloseStream` control messages were sent, and
how the run terminated. -/
structure SendOut where
  sent : List Nat
  closes : Nat
  term : SendTerm
deriving DecidableEq, Repr

/-- The flush-deadline update at the top of a sender iteration: when the
stop flag is observed and no deadline is armed yet, arm it at
`t + flushMs`. -/
def senderDeadline (flushMs : Nat) (dl : Option Nat) (s : SendStep) : Option Nat :=
  if s.stop then match dl with
    | none => some (s.t + flushMs)
    | some d => some d
  else dl

/-- `_sender_loop` over a finite script: at each iteration the stop flag
arms the flush deadline, and once the clock passes it the loop breaks and
sends `CloseStream` exactly once.  A chunk whose `ws.send` raises
`ConnectionClosed` aborts the whole loop body, skipping the `CloseStream`
send (the exception is caught by the outer handler). -/
def senderRun (flushMs : Nat) (dl : Option Nat) (acc : List Nat) :
    List SendStep → SendOut
  | [] => ⟨acc.reverse, 0, .ranOut⟩
  | s :: rest =>
      let dl' := senderDeadline flushMs dl s
      if s.stop && (match dl' with | some d => decide (d < s.t) | none => false) then
        ⟨acc.reverse, 1, .closedNormally⟩
      else
        match s.e with
        | .timeout => senderRun flushMs dl' acc rest
        | .chunk true => senderRun flushMs dl' (s.t :: acc) rest
        | .chunk false => ⟨acc.reverse, 0, .sendFail⟩

/-! ## Controller public API
(`start_streaming` lines 115–154, `stop_streaming_and_collect`
lines 168–215 of `stt_deepgram.py`). -/

/-- Controller state visible to the public API. -/
structure CtlState where
  active : Bool
  st : SttState
deriving DecidableEq, Repr

/-- A Python exception raised by an awaited task or by `ws.close()`. -/
inductive Exc where
  | taskExc
deriving DecidableEq, Repr

/-- The result dictionary built by `stop_streaming_and_collect`. -/
structure CollectResult where
  raw_full : Str
  final_segments : List Str
  last_interim : Str
  stream_log_tail : List LogEntry
  spoken_trace : Str
deriving DecidableEq, Repr

/-- `stop_streaming_and_collect` returns `{}` on an inactive controller,
otherwise a populated result dictionary. -/
inductive CollectOut where
  | emptyDict
  | result (r : CollectResult)
deriving DecidableEq, Repr

/-- The result dictionary (lines 199–215): `raw_full` joins the final
segments with single spaces and strips, the event-log tail keeps the last
`STREAM_LOG_MAX` entries, and `spoken_trace` renders each tail entry as
`FINAL: ...` or `INTERIM: ...` joined by newlines. -/
def mkCollectResult (logMax : Nat) (s : SttState) : CollectResult :=
  let tail := pyTakeLast logMax s.stream_log
  let lines := tail.map fun e =>
    (if e.is_final then str "FINAL: " else str "INTERIM: ") ++ e.text
  { raw_full := pyStrip (pyJoin (str " ") s.final_segments)
    final_segments := s.final_segments
    last_interim := pyStrip s.last_interim
    stream_log_tail := tail
    spoken_trace := pyStrip (pyJoin (str "\n") lines) }

/-- An awaited task: raises iff the task failed. -/
def awaitTask (fail : Bool) : Except Exc Unit :=
  if fail then .error .taskExc else .ok ()

/-- `try: await x / except Exception: pass`. -/
def tryPass (x : Except Exc Unit) : Except Exc Unit :=
  match x with
  | .error _ => .ok ()
  | .ok u => .ok u

/-- `stop_streaming_and_collect` (lines 168–215): returns `{}` when no
session is active; otherwise awaits the sender and receiver tasks and
closes the socket — each inside `try/except pass` — then deactivates the
session and builds the result from whatever transcript state was
accumulated.  `senderFail`, `recvFail`, `closeFail` say whether each
awaited operation raised. -/
def stop_streaming_and_collect (logMax : Nat) (c : CtlState)
    (senderFail recvFail closeFail : Bool) : Except Exc (CtlState × CollectOut) := do
  if c.active = false then
    return (c, .emptyDict)
  let _ ← tryPass (awaitTask senderFail)
  let _ ← tryPass (awaitTask recvFail)
  let _ ← tryPass (awaitTask closeFail)
  return ({ c with active := false }, .result (mkCollectResult logMax c.st))

/-- Error raised by `start_streaming`. -/
inductive StartErr where
  | noApiKey
  | connectFailed
deriving DecidableEq, Repr

/-- Outcome of `start_streaming`: resulting controller state and the
exception, if one was raised. -/
structure StartOut where
  c : CtlState
  err : Option StartErr
deriving DecidableEq, Repr

/-- `start_streaming` (lines 115–154): a no-op when already active;
raises when the API key is missing; otherwise clears the previous
session's transcripts, marks the session active and connects — a connect
failure resets `active` to `False` and raises. -/
def start_streaming (apiKeyPresent connectOk : Bool) (c : CtlState) : StartOut :=
  if c.active then ⟨c, none⟩
  else if apiKeyPresent = false then ⟨c, some .noApiKey⟩
  else
    let c1 : CtlState := ⟨true, ⟨[], [], []⟩⟩
    if connectOk then ⟨c1, none⟩
    else ⟨⟨false, c1.st⟩, some .connectFailed⟩

/-! ## Audio capture callback
(`HotMicDeepgramController._audio_callback`,
`dg_vi_hotmic_qwen_toggle.py` lines 173–188). -/

/-- `asyncio.Queue.put_nowait` raises `QueueFull` iff the queue is
bounded (`maxsize > 0`) and at capacity. -/
def queueFull (maxsize : Nat) (q : List α) : Bool :=
  decide (0 < maxsize) && decide (maxsize ≤ q.length)

/-- The capture callback: `put_nowait` the new block; on `QueueFull`,
`get_nowait` the oldest block (ignoring `QueueEmpty`) and retry the put,
dropping the block if the queue is somehow still full.  Pure and
non-blocking by construction. -/
def audioCallback (maxsize : Nat) (q : List α) (b : α) : List α :=
  if queueFull maxsize q then
    let q' := q.tail
    if queueFull maxsize q' then q' else q' ++ [b]
  else q ++ [b]

/-! ## Hot-mic receiver message processing
(`_receiver_loop` in `dg_vi_hotmic_qwen_toggle.py`, lines 306–364). -/

/-- Transcript state of `HotMicDeepgramController`, which additionally
keeps the deduplicated `interim_updates` list. -/
structure HotState where
  final_segments : List Str
  last_interim : Str
  interim_updates : List Str
  stream_log : List LogEntry
deriving DecidableEq, Repr

/-- Processing of one received message inside the hot-mic
`_receiver_loop` (lines 312–349): as `sttProcess`, except that an interim
transcript differing from the previous one is also appended to
`interim_updates` (trimmed to its last 400 entries when it exceeds 800),
and a repeated interim only extends the stream log. -/
def hotProcess (logMax : Nat) (st : HotState) (now : Nat) (m : DgMsg) : HotState :=
  match m with
  | .otherMsg => st
  | .results tr fin =>
      let t := pyStrip tr
      if t = [] then st
      else
        let log := trimLog logMax (st.stream_log ++ [⟨now, fin, t⟩])
        if fin then
          { st with final_segments := st.final_segments ++ [t],
                    last_interim := [], stream_log := log }
        else if t = st.last_interim then
          { st with stream_log := log }
        else
          let iu := st.interim_updates ++ [t]
          let iu := if 800 < iu.length then pyTakeLast 400 iu else iu
          { st with interim_updates := iu, last_interim := t, stream_log := log }

/-! ## Lemmas about the string model -/

/-- A string with no leading and no trailing whitespace. -/
def Trimmed (s : Str) : Prop :=
  List.dropWhile isWS s = s ∧ List.rdropWhile isWS s = s

theorem pyStrip_eq (s : Str) :
    pyStrip s = List.rdropWhile isWS (List.dropWhile isWS s) := rfl

theorem head_false_of_dropWhile_fix {p : Char → Bool} {c : Char} {l : Str}
    (h : List.dropWhile p (c :: l) = c :: l) : p c = false := by
  by_cases hc : p c = true
  · rw [List.dropWhile_cons, if_pos hc] at h
    have hle := (List.dropWhile_sublist (l := l) (p := p)).length_le
    rw [h] at hle
    simp at hle
  · simpa using hc

/-- A nonempty left-trimmed string absorbs anything appended after it. -/
theorem dropWhile_fix_append {l x : Str} (hne : l ≠ [])
    (h : List.dropWhile isWS l = l) :
    List.dropWhile isWS (l ++ x) = l ++ x := by
  cases l with
  | nil => exact absurd rfl hne
  | cons c l' =>
      have hc := head_false_of_dropWhile_fix h
      simp [List.dropWhile_cons, hc]

/-- A nonempty right-trimmed string absorbs anything prepended before it. -/
theorem rdropWhile_fix_append {l x : Str} (hne : l ≠ [])
    (h : List.rdropWhile isWS l = l) :
    List.rdropWhile isWS (x ++ l) = x ++ l := by
  have hlast := List.rdropWhile_eq_self_iff.mp h hne
  rw [List.rdropWhile_eq_self_iff]
  intro hl
  rwa [List.getLast_append hl, dif_neg (by simpa using hne)]

/-- The output of `pyStrip` is trimmed on both sides. -/
theorem trimmed_pyStrip (s : Str) : Trimmed (pyStrip s) := by
  rw [pyStrip_eq]
  constructor
  · rcases hu : List.rdropWhile isWS (List.dropWhile isWS s) with _ | ⟨c, u'⟩
    · simp
    · obtain ⟨t, ht⟩ := List.rdropWhile_prefix isWS (List.dropWhile isWS s)
      rw [hu] at ht
      have ht' : c :: (u' ++ t) = List.dropWhile isWS s := by simpa using ht
      have hfix : List.dropWhile isWS (c :: (u' ++ t)) = c :: (u' ++ t) := by
        rw [ht']; exact List.dropWhile_idempotent _ _
      have hc := head_false_of_dropWhile_fix hfix
      simp [List.dropWhile_cons, hc]
  · exact List.rdropWhile_idempotent _ _

theorem pyStrip_of_trimmed {s : Str} (h : Trimmed s) : pyStrip s = s := by
  rw [pyStrip_eq, h.1, h.2]

/-- A `join` of nonempty trimmed strings is nonempty and trimmed. -/
theorem pyJoin_good (sep : Str) :
    ∀ (rest : List Str) (s : Str), s ≠ [] → Trimmed s →
      (∀ x ∈ rest, x ≠ [] ∧ Trimmed x) →
      pyJoin sep (s :: rest) ≠ [] ∧ Trimmed (pyJoin sep (s :: rest))
  | [], s, hne, htr, _ => ⟨hne, htr⟩
  | s' :: rest', s, hne, htr, hrest => by
      obtain ⟨hne', htr', hrest'⟩ :
          s' ≠ [] ∧ Trimmed s' ∧ ∀ x ∈ rest', x ≠ [] ∧ Trimmed x := by
        refine ⟨(hrest s' (by simp)).1, (hrest s' (by simp)).2, ?_⟩
        intro x hx
        exact hrest x (by simp [hx])
      obtain ⟨jne, jtr⟩ := pyJoin_good sep rest' s' hne' htr' hrest'
      have hj : pyJoin sep (s :: s' :: rest') =
          (s ++ sep) ++ pyJoin sep (s' :: rest') := rfl
      refine ⟨by rw [hj]; simp [hne], ?_, ?_⟩
      · rw [hj, List.append_assoc]
        exact dropWhile_fix_append hne htr.1
      · rw [hj]
        exact rdropWhile_fix_append jne jtr.2

/-- Stripping a `join` of nonempty trimmed strings is the identity. -/
theorem pyStrip_pyJoin (sep : Str) (xs : List Str)
    (h : ∀ x ∈ xs, x ≠ [] ∧ Trimmed x) :
    pyStrip (pyJoin sep xs) = pyJoin sep xs := by
  cases xs with
  | nil => rfl
  | cons s rest =>
      obtain ⟨hne, htr⟩ := h s (by simp)
      exact pyStrip_of_trimmed
        (pyJoin_good sep rest s hne htr (fun x hx => h x (by simp [hx]))).2

/-! ## Receiver invariants: every finalized segment is nonempty and trimmed -/

/-- The shape of every string the receivers append to their final-segment
lists. -/
def GoodSeg (s : Str) : Prop := s ≠ [] ∧ Trimmed s

theorem goodSeg_pyStrip {s : Str} (h : pyStrip s ≠ []) : GoodSeg (pyStrip s) :=
  ⟨h, trimmed_pyStrip s⟩

theorem sttProcess_goodSegs {logMax : Nat} {st : SttState} {now : Nat} {m : DgMsg}
    (h : ∀ s ∈ st.final_segments, GoodSeg s) :
    ∀ s ∈ (sttProcess logMax st now m).final_segments, GoodSeg s := by
  cases m with
  | otherMsg => exact h
  | results tr fin =>
      by_cases ht : pyStrip tr = []
      · simpa [sttProcess, ht] using h
      · cases fin with
        | false => simpa [sttProcess, ht] using h
        | true =>
            intro s hs
            simp [sttProcess, ht] at hs
            rcases hs with hs | hs
            · exact h s hs
            · exact hs ▸ goodSeg_pyStrip ht

theorem sttRunMsgs_goodSegs (logMax : Nat) (ms : List (Nat × DgMsg)) :
    ∀ s ∈ (sttRunMsgs logMax ms).final_segments, GoodSeg s := by
  have main : ∀ (ms : List (Nat × DgMsg)) (st : SttState),
      (∀ s ∈ st.final_segments, GoodSeg s) →
      ∀ s ∈ (ms.foldl (fun st p => sttProcess logMax st p.1 p.2) st).final_segments,
        GoodSeg s := by
    intro ms
    induction ms with
    | nil => intro st h; exact h
    | cons p rest ih =>
        intro st h
        exact ih _ (sttProcess_goodSegs h)
  exact main ms ⟨[], [], []⟩ (by simp)

theorem trimmed_fluxFinalText (latest : Nat → Option Str) (ti : Option Nat) (t : Str) :
    Trimmed (fluxFinalText latest ti t) := by
  cases ti with
  | none => exact trimmed_pyStrip t
  | some i => exact trimmed_pyStrip _

theorem fluxStep_goodSegs {st : FluxState} {e : FluxEvent}
    (h : ∀ s ∈ st.finals, GoodSeg s) :
    ∀ s ∈ (fluxStep st e).finals, GoodSeg s := by
  rcases e with ⟨ev, ti, tr⟩
  cases ev with
  | update => exact h
  | otherEv => exact h
  | endOfTurn =>
      by_cases hft :
        fluxFinalText (fluxUpdateLatest st.latest_by_turn ti (pyStrip tr)) ti
          (pyStrip tr) = []
      · simpa [fluxStep, hft] using h
      · intro s hs
        simp [fluxStep, hft] at hs
        rcases hs with hs | hs
        · exact h s hs
        · exact hs ▸ ⟨hft, trimmed_fluxFinalText _ _ _⟩

theorem fluxRun_goodSegs (es : List FluxEvent) :
    ∀ s ∈ (fluxRun es).finals, GoodSeg s := by
  have main : ∀ (es : List FluxEvent) (st : FluxState),
      (∀ s ∈ st.finals, GoodSeg s) →
      ∀ s ∈ (es.foldl fluxStep st).finals, GoodSeg s := by
    intro es
    induction es with
    | nil => intro st h; exact h
    | cons e rest ih => intro st h; exact ih _ (fluxStep_goodSegs h)
  exact main es fluxInit (by simp [fluxInit])

theorem filterMap_goodSegs_id (l : List Str) (h : ∀ s ∈ l, GoodSeg s) :
    (l.filterMap fun s => if pyStrip s = [] then none else some (pyStrip s)) = l := by
  induction l with
  | nil => rfl
  | cons s rest ih =>
      obtain ⟨hne, htr⟩ := h s (by simp)
      have hstrip : pyStrip s = s := pyStrip_of_trimmed htr
      rw [List.filterMap_cons]
      simp only [hstrip, if_neg hne]
      rw [ih (fun x hx => h x (by simp [hx]))]

/-! ## Claim theorems -/

theorem fluxStep_latest (st : FluxState) (e : FluxEvent) :
    (fluxStep st e).latest_by_turn =
      fluxUpdateLatest st.latest_by_turn e.turn_index (pyStrip e.transcript) := by
  rcases e with ⟨ev, ti, tr⟩
  cases ev with
  | update => rfl
  | otherEv => rfl
  | endOfTurn =>
      simp only [fluxStep]
      split <;> rfl

theorem fluxStep_endOfTurn (st : FluxState) (ti : Option Nat) (tr : Str) :
    fluxStep st ⟨.endOfTurn, ti, tr⟩ =
      (if fluxFinalText (fluxUpdateLatest st.latest_by_turn ti (pyStrip tr)) ti
            (pyStrip tr) = [] then
        { st with latest_by_turn := fluxUpdateLatest st.latest_by_turn ti (pyStrip tr) }
      else
        { latest_by_turn := fluxUpdateLatest st.latest_by_turn ti (pyStrip tr),
          finals := st.finals ++
            [fluxFinalText (fluxUpdateLatest st.latest_by_turn ti (pyStrip tr)) ti
              (pyStrip tr)] }) := rfl

/-- C1: a transcript event carrying non-empty (stripped) text for turn `i`
replaces the recorded latest text of turn `i` with that text and leaves
all other turns untouched; an event whose own text is empty leaves the
whole turn table unchanged; and the `update(1,"hello")`,
`update(1,"hello there")`, `final(1,"")` script finalizes
`"hello there"` for turn 1. -/
theorem C1_turn_text_reconciliation :
    (∀ (st : FluxState) (e : FluxEvent) (i : Nat),
        e.turn_index = some i → pyStrip e.transcript ≠ [] →
        (fluxStep st e).latest_by_turn i = some (pyStrip e.transcript) ∧
        ∀ j, j ≠ i → (fluxStep st e).latest_by_turn j = st.latest_by_turn j) ∧
    (∀ (st : FluxState) (e : FluxEvent),
        pyStrip e.transcript = [] →
        (fluxStep st e).latest_by_turn = st.latest_by_turn) ∧
    (fluxRun
      [⟨.update, some 1, str "hello"⟩,
       ⟨.update, some 1, str "hello there"⟩,
       ⟨.endOfTurn, some 1, str ""⟩]).finals = [str "hello there"] := by
  refine ⟨?_, ?_, by decide⟩
  · intro st e i hti hne
    rw [fluxStep_latest, hti]
    refine ⟨by simp [fluxUpdateLatest, hne], ?_⟩
    intro j hj
    simp [fluxUpdateLatest, hne, hj]
  · intro st e hempty
    rw [fluxStep_latest]
    cases hti : e.turn_index with
    | none => rfl
    | some i => simp [fluxUpdateLatest, hempty]

theorem C1_turn_text_reconciliation_witness :
    (fluxStep fluxInit ⟨.update, some 1, str "hello"⟩).latest_by_turn 1 =
      some (pyStrip (str "hello")) ∧
    (fluxStep fluxInit ⟨.endOfTurn, some 1, str ""⟩).latest_by_turn =
      fluxInit.latest_by_turn :=
  ⟨(C1_turn_text_reconciliation.1 fluxInit ⟨.update, some 1, str "hello"⟩ 1 rfl
      (by decide)).1,
    C1_turn_text_reconciliation.2.1 fluxInit ⟨.endOfTurn, some 1, str ""⟩ (by decide)⟩

/-- C2: when the Flux receiver processes an `EndOfTurn` event for turn
`i`, the reconciled text for that turn (latest recorded text, falling
back to the event's own text) is appended to `finals` as exactly one new
segment when it is non-empty, and nothing is appended when it is
empty. -/
theorem C2_final_event_appends_reconciled_text :
    ∀ (st : FluxState) (e : FluxEvent) (i : Nat),
      e.ev = .endOfTurn → e.turn_index = some i →
      (fluxFinalText (fluxUpdateLatest st.latest_by_turn e.turn_index
            (pyStrip e.transcript)) e.turn_index (pyStrip e.transcript) ≠ [] →
        (fluxStep st e).finals = st.finals ++
          [fluxFinalText (fluxUpdateLatest st.latest_by_turn e.turn_index
              (pyStrip e.transcript)) e.turn_index (pyStrip e.transcript)]) ∧
      (fluxFinalText (fluxUpdateLatest st.latest_by_turn e.turn_index
            (pyStrip e.transcript)) e.turn_index (pyStrip e.transcript) = [] →
        (fluxStep st e).finals = st.finals) := by
  intro st e i hev hti
  rcases e with ⟨ev, ti, tr⟩
  simp only at hev
  subst hev
  rw [fluxStep_endOfTurn]
  constructor
  · intro hne
    rw [if_neg hne]
  · intro hemp
    rw [if_pos hemp]

theorem C2_final_event_appends_reconciled_text_witness :
    (fluxStep ⟨fun j => if j = 1 then some (str "hello there") else none, []⟩
        ⟨.endOfTurn, some 1, str ""⟩).finals = [str "hello there"] ∧
    (fluxStep fluxInit ⟨.endOfTurn, some 1, str ""⟩).finals = [] := by
  constructor
  · have h := (C2_final_event_appends_reconciled_text
      ⟨fun j => if j = 1 then some (str "hello there") else none, []⟩
      ⟨.endOfTurn, some 1, str ""⟩ 1 rfl rfl).1 (by decide)
    rw [h]
    decide
  · have h := (C2_final_event_appends_reconciled_text fluxInit
      ⟨.endOfTurn, some 1, str ""⟩ 1 rfl rfl).2 (by decide)
    rw [h]
    rfl

/-- C5: the combined transcript is exactly the final segments joined with
single spaces, in finalization order — for the stt controller
(`raw_full`) over any inbound message script, for the Flux recorder
(`combined`) over any event script, and concretely: segments
`["one","two","three"]` yield `"one two three"`. -/
theorem C5_combined_transcript_is_space_join :
    (∀ (logMax : Nat) (ms : List (Nat × DgMsg)),
        (mkCollectResult logMax (sttRunMsgs logMax ms)).raw_full =
          pyJoin (str " ") (sttRunMsgs logMax ms).final_segments) ∧
    (∀ es : List FluxEvent,
        fluxCombined (fluxRun es).finals = pyJoin (str " ") (fluxRun es).finals) ∧
    (mkCollectResult STREAM_LOG_MAX (sttRunMsgs STREAM_LOG_MAX
        [(0, .results (str "one") true), (1, .results (str "two") true),
         (2, .results (str "three") true)])).raw_full = str "one two three" := by
  refine ⟨?_, ?_, by decide⟩
  · intro logMax ms
    show pyStrip (pyJoin (str " ") (sttRunMsgs logMax ms).final_segments) = _
    exact pyStrip_pyJoin _ _ (sttRunMsgs_goodSegs logMax ms)
  · intro es
    show pyStrip (pyJoin (str " ") ((fluxRun es).finals.filterMap _)) = _
    rw [filterMap_goodSegs_id _ (fluxRun_goodSegs es)]
    exact pyStrip_pyJoin _ _ (fluxRun_goodSegs es)

/-- C6: `stop_streaming_and_collect` never raises: on an inactive
controller it returns `{}` without error, and on an active controller it
returns — regardless of sender-task, receiver-task or socket-close
failures — a result carrying exactly the segments finalized so far, with
the session deactivated. -/
theorem C6_stop_and_collect_never_raises :
    ∀ (logMax : Nat) (c : CtlState) (senderFail recvFail closeFail : Bool),
      (c.active = false →
        stop_streaming_and_collect logMax c senderFail recvFail closeFail =
          .ok (c, .emptyDict)) ∧
      (c.active = true →
        stop_streaming_and_collect logMax c senderFail recvFail closeFail =
          .ok ({ c with active := false }, .result (mkCollectResult logMax c.st)) ∧
        (mkCollectResult logMax c.st).final_segments = c.st.final_segments) := by
  intro logMax c sf rf cf
  constructor
  · intro h
    simp [stop_streaming_and_collect, h, pure, Except.pure]
  · intro h
    refine ⟨?_, rfl⟩
    cases sf <;> cases rf <;> cases cf <;>
      (simp [stop_streaming_and_collect, h, tryPass, awaitTask, bind, Except.bind];
       rfl)

theorem C6_stop_and_collect_never_raises_witness :
    stop_streaming_and_collect 600 ⟨false, ⟨[], [], []⟩⟩ true true true =
      .ok (⟨false, ⟨[], [], []⟩⟩, .emptyDict) ∧
    stop_streaming_and_collect 600 ⟨true, ⟨[str "a"], [], []⟩⟩ true false true =
      .ok (⟨false, ⟨[str "a"], [], []⟩⟩,
        .result (mkCollectResult 600 ⟨[str "a"], [], []⟩)) :=
  ⟨(C6_stop_and_collect_never_raises 600 ⟨false, ⟨[], [], []⟩⟩ true true true).1 rfl,
    ((C6_stop_and_collect_never_raises 600 ⟨true, ⟨[str "a"], [], []⟩⟩
      true false true).2 rfl).1⟩

/-- C7: `start_streaming` is an idempotent no-op when a session is
already active (the state is returned unchanged, no error), and a connect
failure raises while leaving the controller inactive, so a later start
can be retried. -/
theorem C7_start_idempotent_and_connect_failure :
    ∀ (c : CtlState) (apiKeyPresent connectOk : Bool),
      (c.active = true → start_streaming apiKeyPresent connectOk c = ⟨c, none⟩) ∧
      (c.active = false → apiKeyPresent = true →
        (start_streaming apiKeyPresent false c).err = some .connectFailed ∧
        (start_streaming apiKeyPresent false c).c.active = false) := by
  intro c k ok
  constructor
  · intro h
    simp [start_streaming, h]
  · intro h hk
    subst hk
    simp [start_streaming, h]

theorem C7_start_idempotent_and_connect_failure_witness :
    start_streaming true true ⟨true, ⟨[str "x"], [], []⟩⟩ =
      ⟨⟨true, ⟨[str "x"], [], []⟩⟩, none⟩ ∧
    (start_streaming true false ⟨false, ⟨[], [], []⟩⟩).err = some .connectFailed ∧
    (start_streaming true false ⟨false, ⟨[], [], []⟩⟩).c.active = false :=
  ⟨(C7_start_idempotent_and_connect_failure ⟨true, ⟨[str "x"], [], []⟩⟩ true true).1 rfl,
    (C7_start_idempotent_and_connect_failure ⟨false, ⟨[], [], []⟩⟩ true false).2 rfl rfl⟩

/-- C8: the capture callback never blocks (it is a total function built
from `put_nowait`/`get_nowait`): when the bounded queue is not full the
frame is enqueued at the tail, preserving capture order; when it is full
the oldest frame is evicted and the newest inserted at the tail. -/
theorem C8_capture_callback_eviction :
    ∀ (α : Type) (maxsize : Nat) (q : List α) (b : α),
      (queueFull maxsize q = false → audioCallback maxsize q b = q ++ [b]) ∧
      (queueFull maxsize q = true → q.length ≤ maxsize →
        audioCallback maxsize q b = q.tail ++ [b]) := by
  intro α maxsize q b
  constructor
  · intro h
    simp [audioCallback, h]
  · intro h hlen
    simp only [queueFull, Bool.and_eq_true, decide_eq_true_eq] at h
    have htail : q.tail.length = q.length - 1 := List.length_tail q
    have hnotfull : queueFull maxsize q.tail = false := by
      simp only [queueFull, htail]
      simp only [Bool.and_eq_false_iff, decide_eq_false_iff_not]
      omega
    have hq : queueFull maxsize q = true := by
      simp only [queueFull, Bool.and_eq_true, decide_eq_true_eq]
      omega
    simp [audioCallback, hq, hnotfull]

theorem C8_capture_callback_eviction_witness :
    audioCallback 3 [10, 20] 30 = [10, 20, 30] ∧
    audioCallback 2 [10, 20] 30 = [20, 30] :=
  ⟨(C8_capture_callback_eviction Nat 3 [10, 20] 30).1 (by decide),
    (C8_capture_callback_eviction Nat 2 [10, 20] 30).2 (by decide) (by decide)⟩

/-- C9: an interim (non-final) `Results` event never mutates committed
state — the final-segment list is unchanged in both receiver variants;
only the last-interim text and the observer-facing logs move. -/
theorem C9_interim_events_preserve_finals :
    ∀ (logMax : Nat) (st : SttState) (hst : HotState) (now : Nat) (tr : Str),
      (sttProcess logMax st now (.results tr false)).final_segments =
        st.final_segments ∧
      (hotProcess logMax hst now (.results tr false)).final_segments =
        hst.final_segments := by
  intro M st hst now tr
  constructor
  · by_cases ht : pyStrip tr = [] <;> simp [sttProcess, ht]
  · by_cases ht : pyStrip tr = []
    · simp [hotProcess, ht]
    · by_cases hli : pyStrip tr = hst.last_interim
      · simp only [hotProcess, ht, if_neg ht, hli]
        split <;> rfl
      · simp [hotProcess, ht, hli]

theorem pyTakeLast_length_le {k : Nat} (hk : 0 < k) (l : List α) :
    (pyTakeLast k l).length ≤ k := by
  simp only [pyTakeLast]
  rw [if_neg (Nat.pos_iff_ne_zero.mp hk)]
  simp only [List.length_drop]
  omega

/-- C10: the stream log stays bounded: each receiver step keeps the log
length at most `4 * STREAM_LOG_MAX + 1` (after appending, a log longer
than `4 * STREAM_LOG_MAX` is cut to its last `2 * STREAM_LOG_MAX`
entries), and the event-log tail returned by `stop_streaming_and_collect`
has at most `STREAM_LOG_MAX` entries. -/
theorem C10_stream_log_bounded :
    ∀ (logMax : Nat), 0 < logMax →
      (∀ (st : SttState) (now : Nat) (m : DgMsg),
        st.stream_log.length ≤ logMax * 4 + 1 →
        (sttProcess logMax st now m).stream_log.length ≤ logMax * 4 + 1) ∧
      (∀ log : List LogEntry, logMax * 4 < log.length →
        trimLog logMax log = pyTakeLast (logMax * 2) log) ∧
      (∀ s : SttState, (mkCollectResult logMax s).stream_log_tail.length ≤ logMax) := by
  intro M hM
  refine ⟨?_, ?_, ?_⟩
  · intro st now m hst
    cases m with
    | otherMsg => exact hst
    | results tr fin =>
        by_cases ht : pyStrip tr = []
        · simpa [sttProcess, ht] using hst
        · have hlog : (trimLog M (st.stream_log ++
              [⟨now, fin, pyStrip tr⟩])).length ≤ M * 4 + 1 := by
            simp only [trimLog]
            split
            · have := pyTakeLast_length_le (k := M * 2) (by omega)
                (st.stream_log ++ [(⟨now, fin, pyStrip tr⟩ : LogEntry)])
              omega
            · simp only [List.length_append, List.length_cons,
                List.length_nil] at *
              omega
          cases fin <;> simpa [sttProcess, ht] using hlog
  · intro log h
    simp [trimLog, h]
  · intro s
    exact pyTakeLast_length_le hM s.stream_log

theorem C10_stream_log_bounded_witness :
    (sttProcess 1 ⟨[], [], []⟩ 0 (.results (str "a") true)).stream_log.length ≤
      1 * 4 + 1 ∧
    trimLog 1 [⟨0, false, str "a"⟩, ⟨1, false, str "b"⟩, ⟨2, false, str "c"⟩,
      ⟨3, false, str "d"⟩, ⟨4, false, str "e"⟩] =
      pyTakeLast 2 [⟨0, false, str "a"⟩, ⟨1, false, str "b"⟩, ⟨2, false, str "c"⟩,
        ⟨3, false, str "d"⟩, ⟨4, false, str "e"⟩] ∧
    (mkCollectResult 1 ⟨[], [], []⟩).stream_log_tail.length ≤ 1 :=
  ⟨(C10_stream_log_bounded 1 (by decide)).1 ⟨[], [], []⟩ 0
      (.results (str "a") true) (by decide),
    (C10_stream_log_bounded 1 (by decide)).2.1 _ (by decide),
    (C10_stream_log_bounded 1 (by decide)).2.2 ⟨[], [], []⟩⟩

/-! ## Sender-loop lemmas -/

theorem senderRun_closes_eq :
    ∀ (steps : List SendStep) (flushMs : Nat) (dl : Option Nat) (acc : List Nat),
      (senderRun flushMs dl acc steps).closes =
        (if (senderRun flushMs dl acc steps).term = SendTerm.closedNormally
         then 1 else 0) := by
  intro steps
  induction steps with
  | nil => intro f dl acc; rfl
  | cons s rest ih =>
      intro f dl acc
      rcases hse : s.e with _ | ok
      · simp only [senderRun, hse]
        split
        · rfl
        · exact ih f _ acc
      · cases ok with
        | true =>
            simp only [senderRun, hse]
            split
            · rfl
            · exact ih f _ _
        | false =>
            simp only [senderRun, hse]
            split
            · rfl
            · rfl

theorem senderRun_sent_bounded_post :
    ∀ (steps : List SendStep) (flushMs d : Nat) (acc : List Nat),
      (∀ s ∈ steps, s.stop = true) →
      (∀ x ∈ acc, x ≤ d) →
      ∀ t ∈ (senderRun flushMs (some d) acc steps).sent, t ≤ d := by
  intro steps
  induction steps with
  | nil =>
      intro f d acc _ hacc t ht
      simp only [senderRun, List.mem_reverse] at ht
      exact hacc t ht
  | cons s rest ih =>
      intro f d acc hstop hacc t ht
      have hs : s.stop = true := hstop s (by simp)
      have hdl : senderDeadline f (some d) s = some d := by
        simp [senderDeadline]
      by_cases hbr : d < s.t
      · simp only [senderRun, hdl, hs, hbr, decide_True, Bool.true_and, if_true,
          List.mem_reverse] at ht
        exact hacc t ht
      · simp only [senderRun, hdl, hs, hbr, decide_False, Bool.true_and,
          Bool.false_eq_true, if_false] at ht
        rcases hse : s.e with _ | ok
        · rw [hse] at ht
          exact ih f d acc (fun x hx => hstop x (by simp [hx])) hacc t ht
        · cases ok with
          | true =>
              rw [hse] at ht
              refine ih f d (s.t :: acc) (fun x hx => hstop x (by simp [hx])) ?_ t ht
              intro x hx
              rcases List.mem_cons.mp hx with hx | hx
              · omega
              · exact hacc x hx
          | false =>
              rw [hse] at ht
              simp only [List.mem_reverse] at ht
              exact hacc t ht

theorem senderRun_sent_bounded :
    ∀ (pre : List SendStep) (p : SendStep) (rest : List SendStep)
      (flushMs : Nat) (acc : List Nat),
      (∀ s ∈ pre, s.stop = false) → p.stop = true →
      (∀ s ∈ rest, s.stop = true) → (∀ s ∈ pre, s.t ≤ p.t) →
      (∀ x ∈ acc, x ≤ p.t + flushMs) →
      ∀ t ∈ (senderRun flushMs none acc (pre ++ p :: rest)).sent,
        t ≤ p.t + flushMs := by
  intro pre
  induction pre with
  | nil =>
      intro p rest f acc _ hp hrest _ hacc t ht
      have hdl : senderDeadline f none p = some (p.t + f) := by
        simp [senderDeadline, hp]
      have hnb : ¬ (p.t + f < p.t) := by omega
      simp only [List.nil_append, senderRun, hdl, hp, hnb, decide_False,
        Bool.true_and, Bool.false_eq_true, if_false] at ht
      rcases hpe : p.e with _ | ok
      · rw [hpe] at ht
        exact senderRun_sent_bounded_post rest f (p.t + f) acc hrest hacc t ht
      · cases ok with
        | true =>
            rw [hpe] at ht
            refine senderRun_sent_bounded_post rest f (p.t + f) (p.t :: acc)
              hrest ?_ t ht
            intro x hx
            rcases List.mem_cons.mp hx with hx | hx
            · omega
            · exact hacc x hx
        | false =>
            rw [hpe] at ht
            simp only [List.mem_reverse] at ht
            exact hacc t ht
  | cons s pre' ih =>
      intro p rest f acc hpre hp hrest hpret hacc t ht
      have hs : s.stop = false := hpre s (by simp)
      have hdl : senderDeadline f none s = none := by
        simp [senderDeadline, hs]
      simp only [List.cons_append, senderRun, hdl, hs, Bool.false_and,
        Bool.false_eq_true, if_false] at ht
      rcases hse : s.e with _ | ok
      · rw [hse] at ht
        exact ih p rest f acc (fun x hx => hpre x (by simp [hx])) hp hrest
          (fun x hx => hpret x (by simp [hx])) hacc t ht
      · cases ok with
        | true =>
            rw [hse] at ht
            refine ih p rest f (s.t :: acc) (fun x hx => hpre x (by simp [hx]))
              hp hrest (fun x hx => hpret x (by simp [hx])) ?_ t ht
            intro x hx
            rcases List.mem_cons.mp hx with hx | hx
            · have := hpret s (by simp)
              omega
            · exact hacc x hx
        | false =>
            rw [hse] at ht
            simp only [List.mem_reverse] at ht
            exact hacc t ht

/-- C3 counterexample: a session in which the first post-stop chunk send
raises `ConnectionClosed` terminates the pump with zero `CloseStream`
sends — the claim's "never zero times" fails on the code, which skips the
`CloseStream` send whenever a chunk send fails. -/
theorem C3_close_not_sent_on_send_failure :
    (senderRun 1200 none [] [⟨0, true, .chunk false⟩]).closes = 0 ∧
    (senderRun 1200 none [] [⟨0, true, .chunk false⟩]).term =
      SendTerm.sendFail := by decide

/-- C3 (amended): every transmitted frame is no later than the flush
window after the iteration at which the pump first observes the stop
flag; and `CloseStream` is sent at most once in every run — exactly once
when the loop breaks normally, and zero times when a chunk send fails. -/
theorem C3_flush_bound_and_close_once :
    (∀ (flushMs : Nat) (pre : List SendStep) (p : SendStep) (rest : List SendStep),
        (∀ s ∈ pre, s.stop = false) → p.stop = true →
        (∀ s ∈ rest, s.stop = true) → (∀ s ∈ pre, s.t ≤ p.t) →
        ∀ t ∈ (senderRun flushMs none [] (pre ++ p :: rest)).sent,
          t ≤ p.t + flushMs) ∧
    (∀ (flushMs : Nat) (dl : Option Nat) (acc : List Nat) (steps : List SendStep),
        (senderRun flushMs dl acc steps).closes ≤ 1) ∧
    (∀ (flushMs : Nat) (dl : Option Nat) (acc : List Nat) (steps : List SendStep),
        (senderRun flushMs dl acc steps).term = SendTerm.closedNormally →
        (senderRun flushMs dl acc steps).closes = 1) ∧
    (∀ (flushMs : Nat) (dl : Option Nat) (acc : List Nat) (steps : List SendStep),
        (senderRun flushMs dl acc steps).term = SendTerm.sendFail →
        (senderRun flushMs dl acc steps).closes = 0) := by
  refine ⟨?_, ?_, ?_, ?_⟩
  · intro f pre p rest h1 h2 h3 h4
    exact senderRun_sent_bounded pre p rest f [] h1 h2 h3 h4 (by simp)
  · intro f dl acc steps
    rw [senderRun_closes_eq]
    split <;> omega
  · intro f dl acc steps h
    rw [senderRun_closes_eq, if_pos h]
  · intro f dl acc steps h
    rw [senderRun_closes_eq, if_neg (by rw [h]; intro hc; cases hc)]

theorem C3_flush_bound_and_close_once_witness :
    100 ≤ 100 + 1200 ∧
    (senderRun 1200 none []
      [⟨0, true, .timeout⟩, ⟨1301, true, .timeout⟩]).closes = 1 ∧
    (senderRun 1200 none [] [⟨0, true, .chunk false⟩]).closes = 0 :=
  ⟨C3_flush_bound_and_close_once.1 1200 [⟨0, false, .chunk true⟩]
      ⟨100, true, .chunk true⟩ [⟨1500, true, .timeout⟩]
      (by decide) rfl (by decide) (by decide) 100 (by decide),
    C3_flush_bound_and_close_once.2.2.1 1200 none []
      [⟨0, true, .timeout⟩, ⟨1301, true, .timeout⟩] (by decide),
    C3_flush_bound_and_close_once.2.2.2 1200 none []
      [⟨0, true, .chunk false⟩] (by decide)⟩

/-- C4 counterexample: in `stt_deepgram.py` the grace countdown is armed
at the first post-stop timeout and is never refreshed by later messages.
With a 6000 ms grace period, a timeout at 0 ms arms the deadline at
6000 ms; a message arriving at 5000 ms (inside the grace window) leaves
the deadline at 6000 ms, and the loop breaks at the 7000 ms timeout even
though only 2000 ms (< 6000 ms) of silence followed the last message —
so a message arriving during the grace period does not restart the
silence wait. -/
theorem C4_message_does_not_restart_grace :
    (sttRecvRun 6000 600 ⟨⟨[], [], []⟩, none⟩
        [⟨0, true, .timeout⟩,
         ⟨5000, true, .msg (.results (str "partial text") false)⟩,
         ⟨7000, true, .timeout⟩]).2 = true ∧
    ((sttRecvRun 6000 600 ⟨⟨[], [], []⟩, none⟩
        [⟨0, true, .timeout⟩,
         ⟨5000, true, .msg (.results (str "partial text") false)⟩]).1).gd =
      some 6000 ∧
    7000 - 5000 < 6000 := by decide

/-- C4 (amended): the Flux receiver's timeout path matches the spec — a
timeout before `CloseStream` was sent never exits, a received
(non-error) message refreshes `last_msg_time` (restarting the silence
wait), and a timeout exits exactly when `CloseStream` was sent and more
than the grace window elapsed since the last message; channel closure
exits unconditionally.  The stt receiver diverges: a message leaves the
armed grace deadline unchanged, a pre-stop timeout never exits, and a
post-stop timeout past the fixed deadline exits. -/
theorem C4_receiver_termination :
    (∀ (graceMs lastMsg : Nat) (i : FluxRecvStep),
        i.e = .timeout → i.sentClose = false →
        fluxRecvCtl graceMs lastMsg i = .cont lastMsg) ∧
    (∀ (graceMs lastMsg : Nat) (i : FluxRecvStep),
        i.e = .recvMsg false → fluxRecvCtl graceMs lastMsg i = .cont i.now) ∧
    (∀ (graceMs lastMsg : Nat) (i : FluxRecvStep), i.e = .timeout →
        (fluxRecvCtl graceMs lastMsg i = .brk lastMsg ↔
          i.sentClose = true ∧ graceMs < i.now - lastMsg)) ∧
    (∀ (graceMs lastMsg : Nat) (i : FluxRecvStep), i.e = .closed →
        fluxRecvCtl graceMs lastMsg i = .brk lastMsg) ∧
    (∀ (graceMs logMax : Nat) (rs : SttRecvState) (i : RecvStep) (m : DgMsg),
        i.e = .msg m →
        sttRecvStep graceMs logMax rs i =
          .cont ⟨sttProcess logMax rs.st i.now m, rs.gd⟩) ∧
    (∀ (graceMs logMax : Nat) (rs : SttRecvState) (i : RecvStep),
        i.e = .timeout → i.stop = false →
        sttRecvStep graceMs logMax rs i = .cont rs) ∧
    (∀ (graceMs logMax : Nat) (rs : SttRecvState) (i : RecvStep) (d : Nat),
        i.e = .timeout → i.stop = true → rs.gd = some d → d < i.now →
        sttRecvStep graceMs logMax rs i = .brk rs) := by
  refine ⟨?_, ?_, ?_, ?_, ?_, ?_, ?_⟩
  · intro g lm i he hc
    simp [fluxRecvCtl, he, hc]
  · intro g lm i he
    simp [fluxRecvCtl, he]
  · intro g lm i he
    rw [fluxRecvCtl, he]
    constructor
    · intro hb
      by_contra hcond
      rw [if_neg ?hn] at hb
      · cases hb
      · intro hc
        exact hcond ⟨by simpa using hc.1, hc.2⟩
    · intro hcond
      rw [if_pos ⟨by simp [hcond.1], hcond.2⟩]
  · intro g lm i he
    simp [fluxRecvCtl, he]
  · intro g M rs i m he
    simp [sttRecvStep, he]
  · intro g M rs i he hs
    simp [sttRecvStep, he, hs]
  · intro g M rs i d he hs hgd hd
    simp [sttRecvStep, he, hs, hgd, hd]

theorem C4_receiver_termination_witness :
    fluxRecvCtl 1500 100 ⟨200, false, .timeout⟩ = .cont 100 ∧
    fluxRecvCtl 1500 100 ⟨200, true, .recvMsg false⟩ = .cont 200 ∧
    fluxRecvCtl 1500 100 ⟨2000, true, .timeout⟩ = .brk 100 ∧
    fluxRecvCtl 1500 100 ⟨200, true, .closed⟩ = .brk 100 ∧
    sttRecvStep 6000 600 ⟨⟨[], [], []⟩, some 6000⟩
        ⟨5000, true, .msg (.results (str "hi") false)⟩ =
      .cont ⟨sttProcess 600 ⟨[], [], []⟩ 5000 (.results (str "hi") false),
        some 6000⟩ ∧
    sttRecvStep 6000 600 ⟨⟨[], [], []⟩, none⟩ ⟨100, false, .timeout⟩ =
      .cont ⟨⟨[], [], []⟩, none⟩ ∧
    sttRecvStep 6000 600 ⟨⟨[], [], []⟩, some 6000⟩ ⟨7000, true, .timeout⟩ =
      .brk ⟨⟨[], [], []⟩, some 6000⟩ :=
  ⟨C4_receiver_termination.1 1500 100 ⟨200, false, .timeout⟩ rfl rfl,
    C4_receiver_termination.2.1 1500 100 ⟨200, true, .recvMsg false⟩ rfl,
    (C4_receiver_termination.2.2.1 1500 100 ⟨2000, true, .timeout⟩ rfl).mpr
      ⟨rfl, by decide⟩,
    C4_receiver_termination.2.2.2.1 1500 100 ⟨200, true, .closed⟩ rfl,
    C4_receiver_termination.2.2.2.2.1 6000 600 ⟨⟨[], [], []⟩, some 6000⟩
      ⟨5000, true, .msg (.results (str "hi") false)⟩ (.results (str "hi") false) rfl,
    C4_receiver_termination.2.2.2.2.2.1 6000 600 ⟨⟨[], [], []⟩, none⟩
      ⟨100, false, .timeout⟩ rfl rfl,
    C4_receiver_termination.2.2.2.2.2.2 6000 600 ⟨⟨[], [], []⟩, some 6000⟩
      ⟨7000, true, .timeout⟩ 6000 rfl rfl rfl (by decide)⟩
